import Mathlib

/-!
Verification of the Kaso AI assistant frontend against its specification.

The development shallowly embeds the TypeScript source:
* `src/frontend/src/lib/api.ts` — the SSE chat-stream client `streamChat`;
* `src/frontend/src/lib/types.ts` — the `ChatStreamEvent` union;
* `src/frontend/src/components/Sidebar.tsx` — the chat submit handler
  (`handleSubmit` of `ChatInterface`) and the conversation search handler
  (`handleSearch` of `Sidebar`);
* `src/frontend/src/app/api/[...path]/route.ts` and `src/unnamed/part_003` —
  the two API proxy `forward` implementations;
and, for the backend pipeline components whose code is not present in the
repository snapshot (only the spec describes them), definitions modelled
from the spec, each marked as such in its doc comment.
-/

namespace Kaso

/-- The `ChatStreamEvent` union from `types.ts`: the four event shapes the
stream client can yield, each carrying its `data` field. -/
inductive ChatStreamEvent where
  | token (data : String)
  | sources (data : List String)
  | done (data : String)
  | error (data : String)
deriving DecidableEq, Repr

/-- Name of an event's `type` discriminant, as the string the TypeScript
union uses. -/
def ChatStreamEvent.typeName : ChatStreamEvent → String
  | .token _ => "token"
  | .sources _ => "sources"
  | .done _ => "done"
  | .error _ => "error"

/-- Whether an event is the error variant. -/
def ChatStreamEvent.isError : ChatStreamEvent → Bool
  | .error _ => true
  | _ => false

/-- A parsed SSE `data:` JSON payload as `streamChat` inspects it.  A JSON
object is open, so besides the four keys the client reads
(`token`, `sources`, `conversation_id`, `error`) the model carries two
further optional keys a backend could include on its final message
(`cited_passage_ids`, `validation_status`); the client never reads them. -/
structure Payload where
  token : Option String := none
  sources : Option (List String) := none
  conversation_id : Option String := none
  error : Option String := none
  cited_passage_ids : Option (List String) := none
  validation_status : Option String := none
deriving DecidableEq, Repr

/-- The event-mapping chain of `streamChat` (api.ts lines 195–203): an
`if / else if` cascade over `parsed.token`, `parsed.sources`,
`parsed.conversation_id`, `parsed.error`; at most one event is yielded per
payload, and a payload defining none of the four keys yields nothing. -/
def parseEvent (p : Payload) : Option ChatStreamEvent :=
  match p.token with
  | some t => some (.token t)
  | none =>
    match p.sources with
    | some s => some (.sources s)
    | none =>
      match p.conversation_id with
      | some c => some (.done c)
      | none =>
        match p.error with
        | some e => some (.error e)
        | none => none

/-- The spec's description of event choice, written independently of the
source: the event type is chosen by the first defined field in the fixed
order `token`, `sources`, `conversation_id`, `error`. -/
def firstDefinedField (p : Payload) : Option ChatStreamEvent :=
  [p.token.map ChatStreamEvent.token,
   p.sources.map ChatStreamEvent.sources,
   p.conversation_id.map ChatStreamEvent.done,
   p.error.map ChatStreamEvent.error].findSome? id

/-! ### The byte-stream loop of `streamChat` (api.ts lines 175–210)

Decoded text is modelled at the character level (`List Char`).  JSON
parsing (`JSON.parse` wrapped in `try/catch`) is modelled by an abstract
total function `parse : List Char → Option Payload`, `none` standing for a
parse failure caught by the `catch`. -/

/-- JavaScript whitespace characters removed by `String.prototype.trim`
(the ASCII ones; the model needs no others). -/
def isJsWhitespace (c : Char) : Bool :=
  c = ' ' || c = '\t' || c = '\n' || c = '\r' || c = '\x0b' || c = '\x0c'

/-- JavaScript `String.prototype.trim`: drop whitespace from both ends. -/
def trimChars (l : List Char) : List Char :=
  ((l.dropWhile isJsWhitespace).reverse.dropWhile isJsWhitespace).reverse

/-- The characters of the SSE field name the client looks for, `data:`. -/
def dataColon : List Char := ['d', 'a', 't', 'a', ':']

/-- Process one complete line, as the loop body does (api.ts 188–208):
lines not starting with `data:` are skipped; the payload after the five
field-name characters is trimmed; an empty payload is skipped; a payload
that fails to parse is skipped (the `catch` only logs); otherwise the
payload's mapped event (if any) is yielded. -/
def processLine (parse : List Char → Option Payload) (line : List Char) :
    List ChatStreamEvent :=
  if line.take 5 = dataColon then
    let data := trimChars (line.drop 5)
    if data = [] then []
    else
      match parse data with
      | none => []
      | some p => (parseEvent p).toList
  else []

/-- JavaScript `String.prototype.split` on the newline character, at
character level: always returns a
non-empty list of newline-free segments. -/
def splitLines : List Char → List (List Char)
  | [] => [[]]
  | c :: cs =>
    if c = '\n' then [] :: splitLines cs
    else (c :: (splitLines cs).headD []) :: (splitLines cs).tail

/-- One iteration of the read loop: append the decoded chunk to the
buffer, split on newlines, keep the last (possibly incomplete) segment as
the new buffer, and hand the complete lines to the line processor. -/
def feedChunk (buf chunk : List Char) : List (List Char) × List Char :=
  let parts := splitLines (buf ++ chunk)
  (parts.dropLast, parts.getLastD [])

/-- The whole read loop: fold `feedChunk` over the chunk sequence starting
from the given buffer, collecting the complete lines in order.  When the
stream ends (`done`), the remaining buffer is discarded, as in the source. -/
def runChunks (buf : List Char) : List (List Char) → List (List Char)
  | [] => []
  | c :: cs =>
    let fed := feedChunk buf c
    fed.1 ++ runChunks fed.2 cs

/-- All events yielded by the streaming part of `streamChat` for a given
chunk sequence. -/
def streamEvents (parse : List Char → Option Payload)
    (chunks : List (List Char)) : List ChatStreamEvent :=
  (runChunks [] chunks).flatMap (processLine parse)

/-- Function `streamChat` end to end (api.ts 151–211): it throws (`Except.error`)
when the initial response is not ok (`Failed to start chat stream`) or has
no readable body (`No response body`); otherwise it runs the read loop and
yields the events. -/
def streamChat (parse : List Char → Option Payload)
    (responseOk hasBody : Bool) (chunks : List (List Char)) :
    Except String (List ChatStreamEvent) :=
  if !responseOk then .error "Failed to start chat stream"
  else if !hasBody then .error "No response body"
  else .ok (streamEvents parse chunks)

/-! ### The chat submit handler (`handleSubmit` of `ChatInterface`,
Sidebar.tsx lines 397–464) -/

/-- The local state the event loop of `handleSubmit` threads:
`fullContent` is the accumulator variable, `sources` and `convId` mirror
`setSources` / `newConversationId`, and `streamedUpdates` records every
value passed to `setStreamingContent` inside the loop, in call order. -/
structure ChatState where
  fullContent : String
  sources : List String
  convId : Option String
  streamedUpdates : List String
deriving DecidableEq, Repr

/-- The `switch` of the `for await` loop: a token appends to the content
and immediately publishes the new content to the streaming state; sources
replace the source list; done records the conversation id; an error event
overwrites the content with `Error: ` plus the message (and publishes
nothing). -/
def stepEvent (s : ChatState) : ChatStreamEvent → ChatState
  | .token d =>
    { s with fullContent := s.fullContent ++ d,
             streamedUpdates := s.streamedUpdates ++ [s.fullContent ++ d] }
  | .sources d => { s with sources := d }
  | .done d => { s with convId := some d }
  | .error d => { s with fullContent := "Error: " ++ d }

/-- State at loop entry: `fullContent = ''`, no sources, the streaming
state cleared. -/
def initChatState : ChatState := ⟨"", [], none, []⟩

/-- Run the event loop over a completed stream. -/
def runEvents (evs : List ChatStreamEvent) : ChatState :=
  evs.foldl stepEvent initChatState

/-- How a single submit's interaction with `streamChat` can end: the
stream completes after delivering a list of events, or starting/consuming
it throws after delivering some of them. -/
inductive StreamRun where
  | completed (evs : List ChatStreamEvent)
  | failed (evs : List ChatStreamEvent)

/-- What `handleSubmit` leaves behind: the content of the one assistant
message it appends, the sequence of streaming-state updates made while the
stream ran, how many assistant messages were appended, and how many times
`streamChat` was started. -/
structure SubmitResult where
  assistantContent : String
  streamedUpdates : List String
  assistantMessages : Nat
  streamStarts : Nat
deriving DecidableEq, Repr

/-- Handler `handleSubmit` (Sidebar.tsx 415–463): one `streamChat` start per
submit; on completion the accumulated content becomes the assistant
message; on a throw the `catch` appends an assistant message holding the
localized failure text `errorMsg` (`t('error_msg')`) and nothing
propagates further.  There is no loop or retry around the stream. -/
def handleSubmit (errorMsg : String) (run : StreamRun) : SubmitResult :=
  match run with
  | .completed evs =>
    let s := runEvents evs
    { assistantContent := s.fullContent, streamedUpdates := s.streamedUpdates,
      assistantMessages := 1, streamStarts := 1 }
  | .failed evs =>
    { assistantContent := errorMsg, streamedUpdates := (runEvents evs).streamedUpdates,
      assistantMessages := 1, streamStarts := 1 }

/-- The `data` payloads of the token events of a stream, in order. -/
def tokenDatas (evs : List ChatStreamEvent) : List String :=
  evs.filterMap fun e =>
    match e with
    | .token d => some d
    | _ => none

/-- Running concatenations of a token list on top of a base string: the
value the streaming state shows right after each token arrives. -/
def runningConcats (base : String) : List String → List String
  | [] => []
  | d :: ds => (base ++ d) :: runningConcats (base ++ d) ds

/-- Whether a stream contains an error event. -/
def hasErrorEvent (evs : List ChatStreamEvent) : Bool :=
  evs.any ChatStreamEvent.isError

/-! ### The sidebar conversation search (`handleSearch`, Sidebar.tsx 75–106) -/

/-- A search hit as the client receives it (`SearchHit` in types.ts);
dates are modelled as integer timestamps. -/
structure SearchHit where
  conversationId : String
  conversationTitle : String
  messageContent : String
  messageRole : String
  relevanceScore : Int
  createdAt : Int
deriving DecidableEq, Repr

/-- A conversation summary as displayed in the sidebar list
(`ConversationSummary` in types.ts). -/
structure ConversationSummary where
  id : String
  title : String
  preview : String
  messageCount : Nat
  createdAt : Int
  updatedAt : Int
deriving DecidableEq, Repr

/-- The summary `handleSearch` builds from a hit (Sidebar.tsx 90–97): the
hit's message content becomes the preview, message count is zero, both
dates are the hit's creation date. -/
def summaryOfHit (h : SearchHit) : ConversationSummary :=
  { id := h.conversationId, title := h.conversationTitle,
    preview := h.messageContent, messageCount := 0,
    createdAt := h.createdAt, updatedAt := h.createdAt }

/-- The `uniqueConvs` Map fold of `handleSearch` (Sidebar.tsx 87–99): walk
the hits in result order, inserting a summary only when the conversation
id is not yet present; `Array.from(map.values())` preserves insertion
order, modelled by appending to the accumulator. -/
def dedupeHits (acc : List ConversationSummary) :
    List SearchHit → List ConversationSummary
  | [] => acc
  | h :: hs =>
    if acc.any (fun s => s.id = h.conversationId) then dedupeHits acc hs
    else dedupeHits (acc ++ [summaryOfHit h]) hs

/-- The conversation list `handleSearch` displays for a non-empty query
whose search call returned `hits`. -/
def handleSearch (hits : List SearchHit) : List ConversationSummary :=
  dedupeHits [] hits

/-! ### The API proxy forward handlers
(`route.ts` lines 9–46 and `src/unnamed/part_003` lines 9–63)

A JavaScript plain object keyed by strings is modelled as an association
list with exact-key replace/append assignment; the fetch `Headers` object
used on the response side is modelled with case-insensitive lookup and
lowercase-normalized insertion. -/

/-- Exact-key lookup in a plain-object model. -/
def objGet (o : List (String × String)) (k : String) : Option String :=
  (o.find? fun kv => kv.1 = k).map (·.2)

/-- Plain-object assignment: replace in place if the exact key exists,
otherwise append. -/
def objSet (o : List (String × String)) (k v : String) :
    List (String × String) :=
  if o.any (fun kv => kv.1 = k) then
    o.map fun kv => if kv.1 = k then (k, v) else kv
  else o ++ [(k, v)]

/-- Plain-object `delete`. -/
def objDel (o : List (String × String)) (k : String) :
    List (String × String) :=
  o.filter fun kv => kv.1 ≠ k

/-- JavaScript truthiness of an optional string value: `undefined` and the
empty string are falsy. -/
def jsTruthy (o : Option String) : Bool :=
  match o with
  | none => false
  | some v => v ≠ ""

/-- JavaScript `String.prototype.includes` at character level. -/
def charsInclude : List Char → List Char → Bool
  | _, [] => true
  | [], _ :: _ => false
  | l@(_ :: ls), sub => l.take sub.length = sub || charsInclude ls sub

/-- JavaScript `String.prototype.includes`. -/
def strIncludes (s sub : String) : Bool := charsInclude s.data sub.data

/-- JavaScript `String.prototype.endsWith`. -/
def strEndsWith (s p : String) : Bool :=
  s.data.drop (s.data.length - p.data.length) = p.data

/-- The incoming HTTP request as both `forward` implementations see it:
method, path already stripped of the `/api/` route mount, query string,
header pairs in iteration order, and the raw body text. -/
structure ProxyRequest where
  method : String
  search : String
  headers : List (String × String)
  bodyText : String
deriving DecidableEq, Repr

/-- The request each implementation hands to `fetch`: target URL, method,
header object, and optional body (text; `part_003`'s `arrayBuffer` branch
carries the same bytes). -/
structure ForwardedRequest where
  url : String
  method : String
  headers : List (String × String)
  body : Option String
deriving DecidableEq, Repr

/-- Function `forward` of `route.ts` (lines 9–38): fixed base
`http://backend:8000/api`; copies headers except host / connection /
accept-encoding keeping the original key; defaults `Content-Type` to
`application/json` when falsy; injects `X-API-Key` when the secret is
truthy; forwards the raw body text for every method except GET and HEAD. -/
def forwardRoute (apiSecret : String) (pathname : String)
    (req : ProxyRequest) : ForwardedRequest :=
  let url := "http://backend:8000/api/" ++ pathname ++ req.search
  let headers := req.headers.foldl
    (fun h kv =>
      if ["host", "connection", "accept-encoding"].contains kv.1.toLower
      then h else objSet h kv.1 kv.2) []
  let headers :=
    if jsTruthy (objGet headers "Content-Type") then headers
    else objSet headers "Content-Type" "application/json"
  let headers :=
    if apiSecret ≠ "" then objSet headers "X-API-Key" apiSecret else headers
  let body :=
    if req.method ≠ "GET" ∧ req.method ≠ "HEAD" then some req.bodyText
    else none
  { url := url, method := req.method, headers := headers, body := body }

/-- Function `forward` of `src/unnamed/part_003` (lines 9–56): base from
`BACKEND_URL` defaulting to `http://localhost:8000/api`; copies headers
except host / connection / accept-encoding / content-length with
lowercased keys; for POST/PUT/PATCH re-serializes JSON bodies (modelled by
the abstract round trip `jsonNorm`) or forwards raw bytes with an
`application/octet-stream` default, for other methods drops body and
content-type; injects `x-api-key` when the secret is truthy; forces
`accept: text/event-stream` for the chat stream path. -/
def forwardPart3 (jsonNorm : String → String) (backendUrl : Option String)
    (apiSecret : String) (pathname : String) (req : ProxyRequest) :
    ForwardedRequest :=
  let base := backendUrl.getD "http://localhost:8000/api"
  let url := base ++ "/" ++ pathname ++ req.search
  let headers := req.headers.foldl
    (fun h kv =>
      if ["host", "connection", "accept-encoding", "content-length"].contains
        kv.1.toLower
      then h else objSet h kv.1.toLower kv.2) []
  let state :=
    if req.method = "POST" ∨ req.method = "PUT" ∨ req.method = "PATCH" then
      let ct := ((objGet headers "content-type").map String.toLower).getD ""
      if strIncludes ct "application/json" then
        (objSet headers "content-type" "application/json",
         some (jsonNorm req.bodyText))
      else
        (objSet headers "content-type"
          (if jsTruthy (objGet headers "content-type") then
            (objGet headers "content-type").getD ""
           else "application/octet-stream"),
         some req.bodyText)
    else (objDel headers "content-type", (none : Option String))
  let headers := state.1
  let body := state.2
  let headers :=
    if apiSecret ≠ "" then objSet headers "x-api-key" apiSecret else headers
  let headers :=
    if strEndsWith pathname "chat/stream" then
      objSet headers "accept" "text/event-stream"
    else headers
  { url := url, method := req.method, headers := headers, body := body }

/-- The backend response as both implementations post-process it. -/
structure BackendResponse where
  status : Nat
  headers : List (String × String)
  body : String
deriving DecidableEq, Repr

/-- The response returned to the client. -/
structure ClientResponse where
  status : Nat
  headers : List (String × String)
  body : String
deriving DecidableEq, Repr

/-- Fetch `Headers.has`: case-insensitive. -/
def hdrHas (hs : List (String × String)) (k : String) : Bool :=
  hs.any fun kv => kv.1.toLower = k.toLower

/-- Fetch `Headers.set`: case-insensitive replace, lowercase-normalized
append. -/
def hdrSet (hs : List (String × String)) (k v : String) :
    List (String × String) :=
  if hdrHas hs k then
    hs.map fun kv => if kv.1.toLower = k.toLower then (kv.1, v) else kv
  else hs ++ [(k.toLower, v)]

/-- Response post-processing of `route.ts` (lines 40–45): copy the backend
headers, default `Cache-Control: no-cache` and `Connection: keep-alive`,
stream the body through with the backend status. -/
def buildResponseRoute (res : BackendResponse) : ClientResponse :=
  let oh := res.headers
  let oh := if hdrHas oh "Cache-Control" then oh
            else hdrSet oh "Cache-Control" "no-cache"
  let oh := if hdrHas oh "Connection" then oh
            else hdrSet oh "Connection" "keep-alive"
  { status := res.status, headers := oh, body := res.body }

/-- Response post-processing of `src/unnamed/part_003` (lines 58–63),
textually the same steps as in `route.ts`. -/
def buildResponsePart3 (res : BackendResponse) : ClientResponse :=
  let oh := res.headers
  let oh := if hdrHas oh "Cache-Control" then oh
            else hdrSet oh "Cache-Control" "no-cache"
  let oh := if hdrHas oh "Connection" then oh
            else hdrSet oh "Connection" "keep-alive"
  { status := res.status, headers := oh, body := res.body }

/-! ### Backend pipeline components

The repository snapshot contains no backend pipeline sources; the
following definitions are modelled from the spec (§3, §4.1, §4.6, §2
control flow) and are marked as such. -/

/-- Modelled from the spec: a `Passage` of §3 — retrieved knowledge chunk
with provenance and scores (scores as scaled integers). -/
structure Passage where
  id : String
  text : String
  sourceDocumentId : String
  sourceLocation : String
  embeddingScore : Int
  rerankScore : Option Int := none
deriving DecidableEq, Repr

/-- Modelled from the spec: a conversation `Turn` of §3. -/
structure Turn where
  role : String
  text : String
  timestamp : Nat
  sourceRefs : List String := []
deriving DecidableEq, Repr

/-- Modelled from the spec: a `PromptBudget` of §3. -/
structure PromptBudget where
  maxContextTokens : Nat
  reservedForAnswer : Nat
  selectedPassages : List Passage
  selectedHistoryTurns : List Turn
deriving DecidableEq, Repr

/-- Modelled from the spec: the Token Budget Manager's "length-based
estimate, not exact tokenizer count" (§4.6), taken as the character
length of the text. -/
def estimateTokens (t : String) : Nat := t.length

/-- Truncate a passage's text to the given number of estimate units. -/
def truncatePassage (p : Passage) (n : Nat) : Passage :=
  { p with text := ⟨p.text.data.take n⟩ }

/-- Modelled from the spec: greedy inclusion in rank order, "accumulating
an estimated token count per passage … stopping before exceeding the
budget" (§4.6).  Returns the selection and the remaining budget. -/
def selectGreedyPassages : List Passage → Nat → List Passage × Nat
  | [], rem => ([], rem)
  | p :: ps, rem =>
    if estimateTokens p.text ≤ rem then
      let rest := selectGreedyPassages ps (rem - estimateTokens p.text)
      (p :: rest.1, rest.2)
    else ([], rem)

/-- Modelled from the spec: history turns "included most-recent-first
under the same greedy rule, using any budget remaining after passages"
(§4.6). -/
def selectGreedyHistory : List Turn → Nat → List Turn
  | [], _ => []
  | t :: ts, rem =>
    if estimateTokens t.text ≤ rem then
      t :: selectGreedyHistory ts (rem - estimateTokens t.text)
    else []

/-- Modelled from the spec: the Token Budget Manager's
`fit(passages, historyTurns, maxContextTokens)` (§4.6), with the budget
reserved for context being `maxContextTokens − reservedForAnswer`; "if the
very first passage alone exceeds budget, it is truncated to fit rather
than dropped". -/
def fit (passages : List Passage) (historyTurns : List Turn)
    (maxContextTokens reservedForAnswer : Nat) : PromptBudget :=
  let budget := maxContextTokens - reservedForAnswer
  match passages with
  | [] =>
    { maxContextTokens := maxContextTokens,
      reservedForAnswer := reservedForAnswer,
      selectedPassages := [],
      selectedHistoryTurns := selectGreedyHistory historyTurns.reverse budget }
  | p :: ps =>
    if estimateTokens p.text ≤ budget then
      let sel := selectGreedyPassages (p :: ps) budget
      { maxContextTokens := maxContextTokens,
        reservedForAnswer := reservedForAnswer,
        selectedPassages := sel.1,
        selectedHistoryTurns := selectGreedyHistory historyTurns.reverse sel.2 }
    else
      { maxContextTokens := maxContextTokens,
        reservedForAnswer := reservedForAnswer,
        selectedPassages := [truncatePassage p budget],
        selectedHistoryTurns := [] }

/-- Modelled from the spec: the intent classification outcome (§4.1). -/
inductive Intent where
  | in_scope
  | off_topic
  | ambiguous
deriving DecidableEq, Repr

/-- Modelled from the spec: the `PipelineRequest` of §3. -/
structure PipelineRequest where
  conversationId : String
  rawQuery : String
  recentTurns : List Turn
deriving Repr

/-- Modelled from the spec: the "fixed refusal template" an off-topic
query short-circuits to (§4.1). -/
def refusalTemplate : String :=
  "I can only answer questions about Kaso. Please ask something related to Kaso."

/-- What one pipeline invocation produced, instrumented with how many
retrieval calls and LLM generation calls it issued. -/
structure PipelineResult where
  answer : String
  retrievalCalls : Nat
  generationCalls : Nat
deriving Repr

/-- Modelled from the spec: the control flow of §2 — Normalizer → Intent
Classifier → (if off-topic: short-circuit to a refusal) → … → Retriever →
Reranker → Token Budget Manager → Generation Orchestrator.  The stages are
abstract function parameters; the instrumentation counts one retrieval
call and one generation call on the non-refusal path and none on the
short-circuit. -/
def handleTurn (classify : String → List Turn → Intent)
    (reformulate : String → List Turn → String)
    (retrieve : String → List Passage)
    (rerank : String → List Passage → List Passage)
    (generate : String → PromptBudget → String)
    (maxContextTokens reservedForAnswer : Nat)
    (req : PipelineRequest) : PipelineResult :=
  match classify req.rawQuery req.recentTurns with
  | .off_topic =>
    { answer := refusalTemplate, retrievalCalls := 0, generationCalls := 0 }
  | _ =>
    let q := reformulate req.rawQuery req.recentTurns
    let candidates := retrieve q
    let ranked := rerank q candidates
    let budget := fit ranked req.recentTurns maxContextTokens reservedForAnswer
    { answer := generate q budget, retrievalCalls := 1, generationCalls := 1 }

/-! ### Helper lemmas -/

/-- Concatenation of all decoded chunks of a stream. -/
def joinChunks : List (List Char) → List Char
  | [] => []
  | c :: cs => c ++ joinChunks cs

lemma splitLines_ne_nil (l : List Char) : splitLines l ≠ [] := by
  cases l with
  | nil => simp [splitLines]
  | cons c cs => simp only [splitLines]; split <;> simp

lemma mem_splitLines_no_newline (l : List Char) :
    ∀ x ∈ splitLines l, '\n' ∉ x := by
  induction l with
  | nil => intro x hx; simp [splitLines] at hx; simp [hx]
  | cons c cs ih =>
    intro x hx
    simp only [splitLines] at hx
    split at hx
    · rcases List.mem_cons.mp hx with h | h
      · simp [h]
      · exact ih x h
    · rcases List.mem_cons.mp hx with h | h
      · subst h
        intro hmem
        rcases List.mem_cons.mp hmem with h' | h'
        · rename_i hc; exact hc h'.symm
        · have hne := splitLines_ne_nil cs
          rcases hr : splitLines cs with _ | ⟨y, ys⟩
          · exact hne hr
          · rw [hr] at h'
            exact ih y (by rw [hr]; exact List.mem_cons_self y ys) h'
      · have hne := splitLines_ne_nil cs
        rcases hr : splitLines cs with _ | ⟨y, ys⟩
        · exact absurd hr hne
        · rw [hr] at h
          exact ih x (by rw [hr]; exact List.mem_cons_of_mem y h)

lemma splitLines_of_no_newline (l : List Char) (h : '\n' ∉ l) :
    splitLines l = [l] := by
  induction l with
  | nil => rfl
  | cons c cs ih =>
    have hc : c ≠ '\n' := fun hc => h (hc ▸ List.mem_cons_self c cs)
    have hcs : '\n' ∉ cs := fun hm => h (List.mem_cons_of_mem c hm)
    simp [splitLines, hc, ih hcs]

lemma getLastD_mem {α : Type _} (l : List α) (d : α) (h : l ≠ []) :
    l.getLastD d ∈ l := by
  induction l generalizing d with
  | nil => exact absurd rfl h
  | cons a l ih =>
    cases l with
    | nil => simp
    | cons b t =>
      rw [List.getLastD_cons]
      exact List.mem_cons_of_mem a (ih b (by simp))

lemma getLastD_irrel {α : Type _} (l : List α) (d d' : α) (h : l ≠ []) :
    l.getLastD d = l.getLastD d' := by
  cases l with
  | nil => exact absurd rfl h
  | cons a t => rw [List.getLastD_cons, List.getLastD_cons]

lemma headD_cons_tail {α : Type _} (l : List α) (d : α) (h : l ≠ []) :
    l.headD d :: l.tail = l := by
  cases l with
  | nil => exact absurd rfl h
  | cons a t => rfl

lemma splitLines_append (a b : List Char) :
    splitLines (a ++ b) =
      (splitLines a).dropLast ++
        ((splitLines a).getLastD [] ++ (splitLines b).headD []) ::
          (splitLines b).tail := by
  induction a with
  | nil =>
    have h := headD_cons_tail (splitLines b) [] (splitLines_ne_nil b)
    simpa [splitLines] using h.symm
  | cons c a' ih =>
    by_cases hc : c = '\n'
    · simp only [List.cons_append, splitLines, List.append_eq, if_pos hc]
      rw [ih]
      rcases hra : splitLines a' with _ | ⟨y, ys⟩
      · exact absurd hra (splitLines_ne_nil a')
      · cases ys <;>
          simp [List.getLastD_cons, List.dropLast_cons₂, List.cons_append]
    · simp only [List.cons_append, splitLines, List.append_eq, if_neg hc]
      rw [ih]
      rcases hra : splitLines a' with _ | ⟨y, ys⟩
      · exact absurd hra (splitLines_ne_nil a')
      · cases ys <;>
          simp [List.getLastD_cons, List.dropLast_cons₂, List.cons_append]

lemma runChunks_eq (cs : List (List Char)) :
    ∀ buf : List Char, '\n' ∉ buf →
      runChunks buf cs = (splitLines (buf ++ joinChunks cs)).dropLast := by
  induction cs with
  | nil =>
    intro buf hbuf
    simp [runChunks, joinChunks, splitLines_of_no_newline buf hbuf]
  | cons c cs' ih =>
    intro buf hbuf
    have hbuf' : '\n' ∉ (splitLines (buf ++ c)).getLastD [] :=
      mem_splitLines_no_newline _ _ (getLastD_mem _ _ (splitLines_ne_nil _))
    simp only [runChunks, feedChunk, joinChunks]
    rw [ih _ hbuf', ← List.append_assoc,
      splitLines_append (buf ++ c) (joinChunks cs'),
      splitLines_append ((splitLines (buf ++ c)).getLastD []) (joinChunks cs'),
      splitLines_of_no_newline _ hbuf']
    simp [List.dropLast_append_cons]

lemma streamEvents_eq (parse : List Char → Option Payload)
    (cs : List (List Char)) :
    streamEvents parse cs =
      (splitLines (joinChunks cs)).dropLast.flatMap (processLine parse) := by
  unfold streamEvents
  rw [runChunks_eq cs [] (by simp)]
  rfl

/-- Concatenation of a list of strings in order. -/
def concatAll : List String → String
  | [] => ""
  | d :: ds => d ++ concatAll ds

/-- Boolean check that `s` begins with the characters of `p`. -/
def strBeginsWith (s p : String) : Bool :=
  decide (s.data.take p.data.length = p.data)

lemma str_append_assoc (a b c : String) : a ++ b ++ c = a ++ (b ++ c) := by
  cases a; cases b; cases c
  simp only [HAppend.hAppend, Append.append, String.append]
  exact congrArg String.mk (List.append_assoc _ _ _)

lemma str_empty_append (s : String) : "" ++ s = s := by
  cases s; rfl

lemma strBeginsWith_append (p r : String) : strBeginsWith (p ++ r) p = true := by
  simp [strBeginsWith, String.data_append, List.take_left]

lemma tokenDatas_cons (e : ChatStreamEvent) (evs : List ChatStreamEvent) :
    tokenDatas (e :: evs) =
      (match e with
       | .token d => d :: tokenDatas evs
       | _ => tokenDatas evs) := by
  cases e <;> simp [tokenDatas]

lemma foldl_no_error_content (evs : List ChatStreamEvent) :
    ∀ s : ChatState, (∀ e ∈ evs, e.isError = false) →
      (evs.foldl stepEvent s).fullContent =
        s.fullContent ++ concatAll (tokenDatas evs) := by
  induction evs with
  | nil => intro s _; simp [tokenDatas, concatAll]
  | cons e evs ih =>
    intro s h
    have hevs : ∀ x ∈ evs, x.isError = false :=
      fun x hx => h x (List.mem_cons_of_mem e hx)
    rw [List.foldl_cons, ih _ hevs, tokenDatas_cons]
    cases e with
    | token d => simp [stepEvent, concatAll, str_append_assoc]
    | sources d => simp [stepEvent]
    | done d => simp [stepEvent]
    | error d =>
      have := h (.error d) (List.mem_cons_self _ _)
      simp [ChatStreamEvent.isError] at this

lemma foldl_no_error_updates (evs : List ChatStreamEvent) :
    ∀ s : ChatState, (∀ e ∈ evs, e.isError = false) →
      (evs.foldl stepEvent s).streamedUpdates =
        s.streamedUpdates ++ runningConcats s.fullContent (tokenDatas evs) := by
  induction evs with
  | nil => intro s _; simp [tokenDatas, runningConcats]
  | cons e evs ih =>
    intro s h
    have hevs : ∀ x ∈ evs, x.isError = false :=
      fun x hx => h x (List.mem_cons_of_mem e hx)
    rw [List.foldl_cons, ih _ hevs, tokenDatas_cons]
    cases e with
    | token d => simp [stepEvent, runningConcats]
    | sources d => simp [stepEvent]
    | done d => simp [stepEvent]
    | error d =>
      have := h (.error d) (List.mem_cons_self _ _)
      simp [ChatStreamEvent.isError] at this

lemma foldl_error_content (evs : List ChatStreamEvent) :
    ∀ s : ChatState, hasErrorEvent evs = true →
      ∃ rest, (evs.foldl stepEvent s).fullContent = "Error: " ++ rest := by
  induction evs with
  | nil => intro s h; simp [hasErrorEvent] at h
  | cons e evs ih =>
    intro s h
    by_cases hevs : hasErrorEvent evs = true
    · rw [List.foldl_cons]
      exact ih _ hevs
    · have he : e.isError = true := by
        simp only [hasErrorEvent, List.any_cons, Bool.or_eq_true] at h
        rcases h with h | h
        · exact h
        · exact absurd h hevs
      cases e with
      | error d =>
        have hno : ∀ x ∈ evs, x.isError = false := by
          intro x hx
          by_contra hx'
          exact hevs (List.any_eq_true.mpr
            ⟨x, hx, by simpa using Bool.of_not_eq_false hx'⟩)
        rw [List.foldl_cons, foldl_no_error_content evs _ hno]
        exact ⟨d ++ concatAll (tokenDatas evs), by
          simp [stepEvent, str_append_assoc]⟩
      | token d => simp [ChatStreamEvent.isError] at he
      | sources d => simp [ChatStreamEvent.isError] at he
      | done d => simp [ChatStreamEvent.isError] at he

lemma runningConcats_length (b : String) (ds : List String) :
    (runningConcats b ds).length = ds.length := by
  induction ds generalizing b with
  | nil => rfl
  | cons d ds ih => simp [runningConcats, ih]

lemma dedupeHits_pairwise (hs : List SearchHit) :
    ∀ acc : List ConversationSummary,
      acc.Pairwise (fun a b => a.id ≠ b.id) →
      (dedupeHits acc hs).Pairwise (fun a b => a.id ≠ b.id) := by
  induction hs with
  | nil => intro acc hacc; exact hacc
  | cons h hs ih =>
    intro acc hacc
    simp only [dedupeHits]
    split
    · exact ih acc hacc
    · rename_i hnot
      refine ih _ (List.pairwise_append.mpr ⟨hacc, List.pairwise_singleton _ _, ?_⟩)
      intro a ha b hb
      rw [List.mem_singleton.mp hb]
      intro heq
      have : acc.any (fun s => s.id = h.conversationId) = true :=
        List.any_eq_true.mpr ⟨a, ha, by simpa [summaryOfHit] using heq⟩
      exact hnot this

lemma dedupeHits_first_hit (hs : List SearchHit) :
    ∀ acc : List ConversationSummary, ∀ s ∈ dedupeHits acc hs,
      s ∈ acc ∨
        ((∀ a ∈ acc, a.id ≠ s.id) ∧
          ∃ h, hs.find? (fun x => x.conversationId = s.id) = some h ∧
            s = summaryOfHit h) := by
  induction hs with
  | nil =>
    intro acc s hmem
    exact Or.inl (by simpa [dedupeHits] using hmem)
  | cons h hs ih =>
    intro acc s hmem
    simp only [dedupeHits] at hmem
    split at hmem
    · rename_i hin
      rcases ih acc s hmem with hl | ⟨hnotin, h', hfind, hsum⟩
      · exact Or.inl hl
      · refine Or.inr ⟨hnotin, h', ?_, hsum⟩
        have hne : h.conversationId ≠ s.id := by
          rcases List.any_eq_true.mp hin with ⟨a, ha, haeq⟩
          intro heq
          exact hnotin a ha (by
            have := of_decide_eq_true haeq
            rw [this, heq])
        rw [List.find?_cons]
        simp [hne]
        exact hfind
    · rename_i hnotin0
      rcases ih _ s hmem with hl | ⟨hnotin, h', hfind, hsum⟩
      · rcases List.mem_append.mp hl with hacc | hnew
        · exact Or.inl hacc
        · have hs' : s = summaryOfHit h := List.mem_singleton.mp hnew
          refine Or.inr ⟨?_, h, ?_, hs'⟩
          · intro a ha heq
            exact hnotin0 (List.any_eq_true.mpr ⟨a, ha, by
              simp [hs', summaryOfHit] at heq
              simp [heq]⟩)
          · rw [List.find?_cons]
            simp [hs', summaryOfHit]
      · have hne : h.conversationId ≠ s.id := by
          intro heq
          exact hnotin (summaryOfHit h)
            (List.mem_append.mpr (Or.inr (List.mem_singleton.mpr rfl)))
            (by simp [summaryOfHit, heq])
        refine Or.inr ⟨?_, h', ?_, hsum⟩
        · intro a ha
          exact hnotin a (List.mem_append.mpr (Or.inl ha))
        · rw [List.find?_cons]
          simp [hne]
          exact hfind

/-! ### Claims -/

/-- C1: every event yielded by the chat stream client has one of the four
types token, sources, done, error, and for every parsed payload the event
is chosen by the first defined field in the fixed order `token`,
`sources`, `conversation_id`, `error`; the mapping yields at most one
event per payload (`Option`), never more and never another type. -/
theorem C1_stream_event_types (p : Payload) :
    parseEvent p = firstDefinedField p ∧
    ∀ e, parseEvent p = some e →
      e.typeName = "token" ∨ e.typeName = "sources" ∨
      e.typeName = "done" ∨ e.typeName = "error" := by
  constructor
  · rcases p with ⟨t, s, c, er, ci, vs⟩
    cases t <;> cases s <;> cases c <;> cases er <;> rfl
  · intro e _
    cases e <;> simp [ChatStreamEvent.typeName]

/-- Witness for C1 at a concrete payload whose first defined field is
`sources`. -/
theorem C1_witness :
    (ChatStreamEvent.sources ["a"]).typeName = "token" ∨
    (ChatStreamEvent.sources ["a"]).typeName = "sources" ∨
    (ChatStreamEvent.sources ["a"]).typeName = "done" ∨
    (ChatStreamEvent.sources ["a"]).typeName = "error" :=
  (C1_stream_event_types
    { sources := some ["a"], conversation_id := some "c" }).2
    (.sources ["a"]) rfl

/-- C2 counterexample: the done event the stream client delivers is built
from the payload's `conversation_id` alone; a payload additionally
carrying cited passage ids and a validation status produces exactly the
same done event as one without them, so the done event delivered to the
caller carries neither. -/
theorem C2_counterexample :
    parseEvent
        { conversation_id := some "abc",
          cited_passage_ids := some ["p1", "p2"],
          validation_status := some "ok" } =
      some (.done "abc") ∧
    parseEvent
        { conversation_id := some "abc",
          cited_passage_ids := some ["p1", "p2"],
          validation_status := some "ok" } =
      parseEvent { conversation_id := some "abc" } :=
  ⟨rfl, rfl⟩

/-- C2 (amended): for every completed stream, the done event delivered to
the caller carries the conversation id (for persistence and navigation),
namely the payload's `conversation_id` value; it does not carry cited
passage ids or a validation status. -/
theorem C2_done_carries_conversation_id (p : Payload) (c : String)
    (ht : p.token = none) (hs : p.sources = none)
    (hc : p.conversation_id = some c) :
    parseEvent p = some (.done c) := by
  simp [parseEvent, ht, hs, hc]

/-- Witness for the amended C2 at a concrete payload. -/
theorem C2_witness :
    parseEvent { conversation_id := some "xyz" } =
      some (ChatStreamEvent.done "xyz") :=
  C2_done_carries_conversation_id _ _ rfl rfl rfl

/-- C3: for a stream that completes without an error event, the assistant
message content assembled by `handleSubmit` is the concatenation, in
arrival order, of the token event payloads, and the streaming state
receives one update per token as it arrives, each equal to the content so
far (not only after completion). -/
theorem C3_tokens_assembled (errorMsg : String) (evs : List ChatStreamEvent)
    (h : ∀ e ∈ evs, e.isError = false) :
    (handleSubmit errorMsg (.completed evs)).assistantContent =
      concatAll (tokenDatas evs) ∧
    (handleSubmit errorMsg (.completed evs)).streamedUpdates =
      runningConcats "" (tokenDatas evs) ∧
    (handleSubmit errorMsg (.completed evs)).streamedUpdates.length =
      (tokenDatas evs).length := by
  have h1 := foldl_no_error_content evs initChatState h
  have h2 := foldl_no_error_updates evs initChatState h
  have hc : (handleSubmit errorMsg (.completed evs)).assistantContent =
      concatAll (tokenDatas evs) :=
    h1.trans (str_empty_append _)
  have hu : (handleSubmit errorMsg (.completed evs)).streamedUpdates =
      runningConcats "" (tokenDatas evs) := h2
  exact ⟨hc, hu, by rw [hu, runningConcats_length]⟩

/-- Witness for C3 at a concrete error-free stream. -/
theorem C3_witness :
    (handleSubmit "E"
        (.completed [ChatStreamEvent.sources ["s"], .token "Hel",
          .token "lo", .done "c1"])).assistantContent =
      concatAll (tokenDatas [ChatStreamEvent.sources ["s"], .token "Hel",
        .token "lo", .done "c1"]) :=
  (C3_tokens_assembled "E" _ (by decide)).1

/-- C4: when generation fails — the stream yields an error event, or
starting/consuming it throws — `handleSubmit` surfaces a user-visible
failure message as the assistant turn (content beginning `Error: ` in the
error-event case, the localized failure text in the thrown case), appends
exactly one assistant message, and starts the stream exactly once (no
automatic retry); the handler is a total function, so no exception
propagates out of it. -/
theorem C4_failure_handled (errorMsg : String)
    (evs evsPart : List ChatStreamEvent) (h : hasErrorEvent evs = true) :
    strBeginsWith (handleSubmit errorMsg (.completed evs)).assistantContent
        "Error: " = true ∧
    (handleSubmit errorMsg (.failed evsPart)).assistantContent = errorMsg ∧
    (handleSubmit errorMsg (.completed evs)).streamStarts = 1 ∧
    (handleSubmit errorMsg (.failed evsPart)).streamStarts = 1 ∧
    (handleSubmit errorMsg (.completed evs)).assistantMessages = 1 ∧
    (handleSubmit errorMsg (.failed evsPart)).assistantMessages = 1 := by
  obtain ⟨rest, hr⟩ := foldl_error_content evs initChatState h
  refine ⟨?_, rfl, rfl, rfl, rfl, rfl⟩
  have hc : (handleSubmit errorMsg (.completed evs)).assistantContent =
      "Error: " ++ rest := hr
  rw [hc, strBeginsWith_append]

/-- Witness for C4 at a concrete stream holding an error event. -/
theorem C4_witness :
    strBeginsWith (handleSubmit "E"
        (.completed [ChatStreamEvent.error "boom",
          .token "x"])).assistantContent "Error: " = true :=
  (C4_failure_handled "E" _ [] (by decide)).1

/-- C5: `streamChat` throws exactly when the initial response is not ok or
has no readable body; once streaming, no byte-stream content throws — a
line not starting with `data:`, with an empty trimmed payload, or with an
unparsable payload yields no event and processing continues; and the
event sequence depends only on the concatenation of the chunks, so a line
broken at a chunk boundary is buffered until completed. -/
theorem C5_stream_robustness (parse : List Char → Option Payload) :
    (∀ ok hb cs, (streamChat parse ok hb cs).isOk = (ok && hb)) ∧
    (∀ line, ¬ line.take 5 = dataColon → processLine parse line = []) ∧
    (∀ line, trimChars (line.drop 5) = [] → processLine parse line = []) ∧
    (∀ line, parse (trimChars (line.drop 5)) = none →
      processLine parse line = []) ∧
    (∀ cs, streamEvents parse cs =
      (splitLines (joinChunks cs)).dropLast.flatMap (processLine parse)) ∧
    (∀ cs1 cs2, joinChunks cs1 = joinChunks cs2 →
      streamEvents parse cs1 = streamEvents parse cs2) := by
  refine ⟨?_, ?_, ?_, ?_, streamEvents_eq parse, ?_⟩
  · intro ok hb cs
    cases ok <;> cases hb <;> rfl
  · intro line hne
    simp [processLine, hne]
  · intro line hdata
    simp only [processLine]
    split
    · simp [hdata]
    · rfl
  · intro line hparse
    simp [processLine, hparse]
  · intro cs1 cs2 hjoin
    rw [streamEvents_eq, streamEvents_eq, hjoin]

/-- Witness for C5: a line not starting with `data:` yields no event. -/
theorem C5_witness : processLine (fun _ => none) ['x'] = [] :=
  (C5_stream_robustness (fun _ => none)).2.1 ['x'] (by decide)

/-- C6 counterexample: at a concrete DELETE request with a body and no
headers (and both secrets unset), the two forward implementations build
different backend requests — different target URL, different header set,
and the body is forwarded by `route.ts` but dropped by `part_003`. -/
theorem C6_counterexample :
    forwardRoute "" "conversations/42"
        { method := "DELETE", search := "", headers := [], bodyText := "x" } ≠
      forwardPart3 id none "" "conversations/42"
        { method := "DELETE", search := "", headers := [], bodyText := "x" } := by
  decide

/-- C6 (amended): the two forward implementations are not equivalent
request builders; they agree only on the forwarded method and on the
response post-processing, which is identical (status and body passthrough
with the same Cache-Control/Connection defaulting). -/
theorem C6_agreement (jsonNorm : String → String) (backendUrl : Option String)
    (apiSecret pathname : String) (req : ProxyRequest)
    (res : BackendResponse) :
    (forwardRoute apiSecret pathname req).method = req.method ∧
    (forwardPart3 jsonNorm backendUrl apiSecret pathname req).method =
      req.method ∧
    buildResponseRoute res = buildResponsePart3 res :=
  ⟨rfl, rfl, rfl⟩

/-- C7: with a non-empty passage list and a non-zero context budget, `fit`
selects at least one passage; in particular when the first passage alone
exceeds the budget it is truncated to fit rather than dropped. -/
theorem C7_fit_nonempty (ps : List Passage) (hist : List Turn)
    (maxContextTokens reservedForAnswer : Nat) (hne : ps ≠ [])
    (hb : 0 < maxContextTokens - reservedForAnswer) :
    (fit ps hist maxContextTokens reservedForAnswer).selectedPassages ≠ [] ∧
    ∀ p rest, ps = p :: rest →
      maxContextTokens - reservedForAnswer < estimateTokens p.text →
      (fit ps hist maxContextTokens reservedForAnswer).selectedPassages =
        [truncatePassage p (maxContextTokens - reservedForAnswer)] ∧
      estimateTokens
          (truncatePassage p (maxContextTokens - reservedForAnswer)).text ≤
        maxContextTokens - reservedForAnswer := by
  cases ps with
  | nil => exact absurd rfl hne
  | cons p rest =>
    constructor
    · simp only [fit]
      split
      · rename_i hfit
        simp [selectGreedyPassages, hfit]
      · simp
    · intro p' rest' heq hover
      injection heq with hp hr
      subst hp
      subst hr
      have hnofit : ¬ estimateTokens p.text ≤
          maxContextTokens - reservedForAnswer := Nat.not_le.mpr hover
      constructor
      · simp [fit, hnofit]
      · show (⟨p.text.data.take (maxContextTokens - reservedForAnswer)⟩ :
            String).length ≤ maxContextTokens - reservedForAnswer
        show (p.text.data.take (maxContextTokens - reservedForAnswer)).length ≤
          maxContextTokens - reservedForAnswer
        rw [List.length_take]
        exact Nat.min_le_left _ _

/-- Witness for C7: a single passage whose estimate (17) exceeds the
context budget (8) is truncated to fit, not dropped. -/
theorem C7_witness :
    (fit [⟨"p1", "hello world text!", "doc", "loc", 90, none⟩] [] 10 2
        ).selectedPassages =
      [truncatePassage ⟨"p1", "hello world text!", "doc", "loc", 90, none⟩ 8] :=
  ((C7_fit_nonempty [⟨"p1", "hello world text!", "doc", "loc", 90, none⟩]
    [] 10 2 (by decide) (by decide)).2 _ [] rfl (by decide)).1

/-- C8: a query classified off-topic short-circuits the pipeline to the
fixed refusal template with zero retrieval calls and zero LLM generation
calls. -/
theorem C8_offtopic_short_circuit
    (classify : String → List Turn → Intent)
    (reformulate : String → List Turn → String)
    (retrieve : String → List Passage)
    (rerank : String → List Passage → List Passage)
    (generate : String → PromptBudget → String)
    (maxContextTokens reservedForAnswer : Nat) (req : PipelineRequest)
    (h : classify req.rawQuery req.recentTurns = .off_topic) :
    handleTurn classify reformulate retrieve rerank generate
        maxContextTokens reservedForAnswer req =
      { answer := refusalTemplate, retrievalCalls := 0,
        generationCalls := 0 } := by
  simp [handleTurn, h]

/-- Witness for C8 with a concrete classifier and request. -/
theorem C8_witness :
    handleTurn (fun _ _ => .off_topic) (fun q _ => q) (fun _ => [])
        (fun _ ps => ps) (fun _ _ => "") 100 10
        ⟨"c1", "what is the weather", []⟩ =
      { answer := refusalTemplate, retrievalCalls := 0,
        generationCalls := 0 } :=
  C8_offtopic_short_circuit _ _ _ _ _ 100 10 _ rfl

/-- C9: `fit` is deterministic — equal ranked passage lists, history turns
and budgets give identical `PromptBudget` outputs. -/
theorem C9_fit_deterministic (ps1 ps2 : List Passage) (h1 h2 : List Turn)
    (m1 m2 r1 r2 : Nat) (hps : ps1 = ps2) (hh : h1 = h2) (hm : m1 = m2)
    (hr : r1 = r2) :
    fit ps1 h1 m1 r1 = fit ps2 h2 m2 r2 := by
  subst hps; subst hh; subst hm; subst hr; rfl

/-- Witness for C9 at concrete inputs. -/
theorem C9_witness : fit [] [] 100 10 = fit [] [] 100 10 :=
  C9_fit_deterministic [] [] [] [] 100 100 10 10 rfl rfl rfl rfl

/-- C10: after a conversation search, the displayed list has at most one
entry per conversation id, and the entry kept for an id is built from the
first hit with that id in result order (so its message content is the
preview). -/
theorem C10_search_dedupe (hits : List SearchHit) :
    (handleSearch hits).Pairwise (fun a b => a.id ≠ b.id) ∧
    ∀ s ∈ handleSearch hits,
      ∃ h, hits.find? (fun x => x.conversationId = s.id) = some h ∧
        s = summaryOfHit h := by
  constructor
  · exact dedupeHits_pairwise hits [] List.Pairwise.nil
  · intro s hs
    rcases dedupeHits_first_hit hits [] s hs with hl | ⟨_, h, hfind, hsum⟩
    · simp at hl
    · exact ⟨h, hfind, hsum⟩

/-- Witness for C10 at a result list with a duplicated conversation id. -/
theorem C10_witness :
    ∃ h,
      ([⟨"a", "T1", "m1", "user", 5, 0⟩, ⟨"a", "T1", "m2", "assistant", 4, 1⟩,
        ⟨"b", "T2", "m3", "user", 3, 2⟩] : List SearchHit).find?
          (fun x => x.conversationId =
            (summaryOfHit ⟨"a", "T1", "m1", "user", 5, 0⟩).id) = some h ∧
        summaryOfHit (⟨"a", "T1", "m1", "user", 5, 0⟩ : SearchHit) =
          summaryOfHit h :=
  (C10_search_dedupe _).2 (summaryOfHit ⟨"a", "T1", "m1", "user", 5, 0⟩)
    (by decide)

end Kaso
